import Mathlib

/-!
Verification of the signed-subset algebra and covector-system logic of the
oriented_matroids repository (src/oriented_matroids/signed_subset_element.py
and src/oriented_matroids/covector_oriented_matroid.py), as a shallow
embedding: ground-set labels and sign tokens are Python ints and strings,
Python sets are Finsets, Python lists are Lean lists, and fallible code
returns Except with an explicit error taxonomy mirroring the Python
exception classes raised by the source.
-/

/-- Primitive Python values appearing as ground-set labels and sign tokens
in the source: integers and strings.  Python equality between an int and a
string is False, matching constructor-disjointness of this type. -/
inductive PyVal where
  | int (n : Int)
  | str (s : String)
deriving DecidableEq

/-- Canonical order on primitive values, used to enumerate a Python set as
a list (the order Python produces is unspecified, so any fixed enumeration
is a faithful model): ints before strings, each by their own order. -/
def pyLE : PyVal → PyVal → Prop
  | PyVal.int a, PyVal.int b => a ≤ b
  | PyVal.int _, PyVal.str _ => True
  | PyVal.str _, PyVal.int _ => False
  | PyVal.str a, PyVal.str b => a ≤ b

instance : DecidableRel pyLE
  | PyVal.int a, PyVal.int b => inferInstanceAs (Decidable (a ≤ b))
  | PyVal.int _, PyVal.str _ => Decidable.isTrue trivial
  | PyVal.str _, PyVal.int _ => Decidable.isFalse (fun h => h)
  | PyVal.str a, PyVal.str b => inferInstanceAs (Decidable (a ≤ b))

instance : IsTrans PyVal pyLE :=
  ⟨fun a b c => by
    cases a <;> cases b <;> cases c <;> simp only [pyLE] <;>
      first
        | exact fun h1 h2 => le_trans h1 h2
        | exact fun _ _ => trivial
        | exact fun _ h => h.elim
        | exact fun h _ => h.elim⟩

instance : IsAntisymm PyVal pyLE :=
  ⟨fun a b => by
    cases a <;> cases b <;> simp only [pyLE] <;>
      first
        | exact fun h1 h2 => by rw [le_antisymm h1 h2]
        | exact fun _ h => h.elim
        | exact fun h _ => h.elim⟩

instance : IsTotal PyVal pyLE :=
  ⟨fun a b => by
    cases a <;> cases b <;> simp only [pyLE] <;>
      first
        | exact le_total _ _
        | exact Or.inl trivial
        | exact Or.inr trivial⟩

/-- Enumerate a Python set of primitive values as a list, in the canonical
order. -/
def pyList (s : Finset PyVal) : List PyVal := s.sort pyLE

/-- Python exceptions raised by the embedded code: ValueError and TypeError
with their message, IndexError from out-of-range tuple indexing, and
NameError from reading a local variable that was never assigned
(the zero_fouind typo in is_valid). -/
inductive PyErr where
  | valueError (msg : String)
  | typeError (msg : String)
  | indexError
  | nameError (nm : String)
deriving DecidableEq

instance {ε α : Type} [DecidableEq ε] [DecidableEq α] : DecidableEq (Except ε α) := fun
  | Except.ok x, Except.ok y => decidable_of_iff (x = y) (by simp)
  | Except.ok _, Except.error _ => Decidable.isFalse (by simp)
  | Except.error _, Except.ok _ => Decidable.isFalse (by simp)
  | Except.error e, Except.error f => decidable_of_iff (e = f) (by simp)

/-- State of a SignedSubsetElement after __init__: the three sign sets
`_p`, `_n`, `_z`, the ground-set list `_g`, and `par`, the ground set the
parent object reports via parent.groundset() (none when the parent has no
groundset method). -/
structure SignedSubsetElement where
  _p : Finset PyVal
  _n : Finset PyVal
  _z : Finset PyVal
  _g : List PyVal
  par : Option (List PyVal)
deriving DecidableEq

namespace SignedSubsetElement

/-- Method positives (line 351). -/
def positives (X : SignedSubsetElement) : Finset PyVal := X._p

/-- Method negatives (line 366). -/
def negatives (X : SignedSubsetElement) : Finset PyVal := X._n

/-- Method zeroes (line 381). -/
def zeroes (X : SignedSubsetElement) : Finset PyVal := X._z

/-- Method support (line 396): `self._p.union(self._n)`. -/
def support (X : SignedSubsetElement) : Finset PyVal := X._p ∪ X._n

/-- Method groundset (line 411). -/
def groundset (X : SignedSubsetElement) : List PyVal := X._g

/-- Method __call__ (lines 211-222): sign of a label, checking positives,
then negatives, then zeroes, else ValueError. -/
def call (X : SignedSubsetElement) (v : PyVal) : Except PyErr Int :=
  if v ∈ X._p then Except.ok 1
  else if v ∈ X._n then Except.ok (-1)
  else if v ∈ X._z then Except.ok 0
  else Except.error (PyErr.valueError "Not in groundset")

/-- Method __neg__ (lines 233-240): swap `_p` and `_n`, keep the rest. -/
def neg (X : SignedSubsetElement) : SignedSubsetElement :=
  ⟨X._n, X._p, X._z, X._g, X.par⟩

/-- Method __eq__ (lines 242-251): equality compares only the three sign
sets, not the ground set or the parent. -/
def pyEq (X Y : SignedSubsetElement) : Prop :=
  X._p = Y._p ∧ X._n = Y._n ∧ X._z = Y._z

instance (X Y : SignedSubsetElement) : Decidable (pyEq X Y) := by
  unfold pyEq; infer_instance

/-- Boolean form of __eq__, used for Python `in` membership tests. -/
def pyEqb (X Y : SignedSubsetElement) : Bool :=
  decide (X._p = Y._p) && decide (X._n = Y._n) && decide (X._z = Y._z)

/-- Python `X in lst` membership, which compares with __eq__. -/
def memPy (X : SignedSubsetElement) (l : List SignedSubsetElement) : Bool :=
  l.any (pyEqb X)

/-- Method separation_set (lines 469-476):
`self.positives().intersection(other.negatives()).union(self.negatives().intersection(other.positives()))`. -/
def separation_set (X Y : SignedSubsetElement) : Finset PyVal :=
  (X.positives ∩ Y.negatives) ∪ (X.negatives ∩ Y.positives)

/-- Method is_conformal_with (lines 503-511):
`len(self.separation_set(other)) == 0`. -/
def is_conformal_with (X Y : SignedSubsetElement) : Bool :=
  (X.separation_set Y).card == 0

/-- Method is_restriction_of (lines 513-523):
`self.positives().issubset(other.positives()) and self.negatives().issubset(other.negatives())`. -/
def is_restriction_of (X Y : SignedSubsetElement) : Bool :=
  decide (X.positives ⊆ Y.positives) && decide (X.negatives ⊆ Y.negatives)

/-- Loop of is_zero (line 570): count of ground-set elements with nonzero
sign, threading the possible ValueError from self(e). -/
def isZeroLoop (X : SignedSubsetElement) : List PyVal → Except PyErr Nat
  | [] => Except.ok 0
  | e :: r => do
      let s ← X.call e
      let c ← isZeroLoop X r
      pure (if s ≠ 0 then c + 1 else c)

/-- Method is_zero (lines 566-570):
`len([1 for e in self.groundset() if self(e) != 0]) == 0`. -/
def is_zero (X : SignedSubsetElement) : Except PyErr Bool := do
  let c ← isZeroLoop X X._g
  pure (c == 0)

/-- Loop of __iter__ (lines 283-288): the signs `self(e)` for `e` over the
ground set in order; an unresolvable label raises. -/
def iterLoop (X : SignedSubsetElement) : List PyVal → Except PyErr (List Int)
  | [] => Except.ok []
  | e :: r => do
      let s ← X.call e
      let t ← iterLoop X r
      pure (s :: t)

/-- Method __iter__ (lines 283-288) materialized as the list of signs over
the ground set. -/
def iterSigns (X : SignedSubsetElement) : Except PyErr (List Int) :=
  iterLoop X X._g

/-- Reading an element back as the sequence of Python values __iter__
yields: the integer signs, as PyVal ints. -/
def readbackVals (X : SignedSubsetElement) : Except PyErr (List PyVal) := do
  let l ← iterSigns X
  pure (l.map PyVal.int)

end SignedSubsetElement

/-- Shapes of the `data` argument of SignedSubsetElement.__init__ covered by
the model: an existing element (line 133), a tuple of primitive values
(line 139), or a dict (line 168) whose recognized keys
p/positives/n/negatives/z/zeroes carry set-like collections (already
converted to their element sets, as the `set()` call on line 186 does). -/
inductive InitData where
  | elem (X : SignedSubsetElement)
  | tup (l : List PyVal)
  | dict (kp kpositives kn knegatives kz kzeroes : Option (Finset PyVal))

namespace SignedSubsetElement

/-- Token test of line 149: `j == -1 or j == '-'`. -/
def tokNeg (j : PyVal) : Bool := j == PyVal.int (-1) || j == PyVal.str "-"

/-- Token test of line 151: `j == 1 or j == '+'`. -/
def tokPos (j : PyVal) : Bool := j == PyVal.int 1 || j == PyVal.str "+"

/-- Token test of line 153: `j == 0 or j == '' or j == '0'`. -/
def tokZero (j : PyVal) : Bool :=
  j == PyVal.int 0 || j == PyVal.str "" || j == PyVal.str "0"

/-- Membership test of line 141: `data[0] in [-1, 0, 1, '+', '0', '-', '']`. -/
def recognizedTok (j : PyVal) : Bool :=
  j == PyVal.int (-1) || j == PyVal.int 0 || j == PyVal.int 1 ||
  j == PyVal.str "+" || j == PyVal.str "0" || j == PyVal.str "-" ||
  j == PyVal.str ""

/-- Python `set(v)` on a primitive value: iterating a string yields its
characters as one-character strings; an int is not iterable (TypeError). -/
def pySet : PyVal → Except PyErr (Finset PyVal)
  | PyVal.str s =>
      Except.ok ((s.toList.map (fun c => PyVal.str (String.mk [c]))).toFinset)
  | PyVal.int _ => Except.error (PyErr.typeError "int object is not iterable")

/-- Loop of lines 145-156: walk the ternary vector, labelling position i by
groundset[i] when a ground set is known and by i itself otherwise, and
classify each token; an unrecognized token raises ValueError at its
position, before later positions are examined. -/
def vecLoop (gs : Option (List PyVal)) :
    Nat → List PyVal → Except PyErr (Finset PyVal × Finset PyVal × Finset PyVal)
  | _, [] => Except.ok (∅, ∅, ∅)
  | i, j :: rest =>
      let label : PyVal :=
        match gs with
        | some g => g.getD i (PyVal.int 0)
        | none => PyVal.int (Int.ofNat i)
      if tokNeg j then do
        let t ← vecLoop gs (i + 1) rest
        pure (t.1, insert label t.2.1, t.2.2)
      else if tokPos j then do
        let t ← vecLoop gs (i + 1) rest
        pure (insert label t.1, t.2.1, t.2.2)
      else if tokZero j then do
        let t ← vecLoop gs (i + 1) rest
        pure (t.1, t.2.1, insert label t.2.2)
      else Except.error (PyErr.valueError "Must be tuple of -1, 0, 1")

/-- Tuple branch of __init__ (lines 139-166).  `data[0]` on an empty tuple
raises IndexError.  When the first entry is a recognized sign token the
tuple is read as a ternary vector (after the length check of line 142);
otherwise it is read as a pair/triple of label collections, with the zero
set defaulting to the ground-set complement (lines 158-166). -/
def tupleParts (gs : Option (List PyVal)) (l : List PyVal) :
    Except PyErr (Finset PyVal × Finset PyVal × Finset PyVal) :=
  match l with
  | [] => Except.error PyErr.indexError
  | j0 :: rest =>
      if recognizedTok j0 then
        match gs with
        | some g =>
            if l.length ≠ g.length then
              Except.error (PyErr.valueError
                "Length of vector must be same number of elements as ground set")
            else vecLoop gs 0 l
        | none => vecLoop gs 0 l
      else do
        let p ← pySet j0
        let n ← match rest with
          | j1 :: _ => pySet j1
          | [] => Except.error PyErr.indexError
        let z ← if h : 2 < l.length then pySet (l.get ⟨2, h⟩)
          else match gs with
            | some g => pure ((g.toFinset \ p) \ n)
            | none => pure (∅ : Finset PyVal)
        pure (p, n, z)

/-- Branch dispatch of __init__ (lines 116-183), computing the raw `_p`,
`_n`, `_z` sets before the common ground-set reconciliation.  The
positives/negatives keyword path (line 116) takes priority; then an
existing element is copied (line 133); then a tuple (line 139); then a dict
(line 168) where the long key overrides the short one; anything else
raises ValueError. -/
def ssParts (data : Option InitData) (gs : Option (List PyVal))
    (positives negatives zeroes : Option (Finset PyVal)) :
    Except PyErr (Finset PyVal × Finset PyVal × Finset PyVal) :=
  match positives with
  | some p =>
      match negatives with
      | none =>
          Except.error (PyErr.valueError
            "If positives is set, negatives must be as well")
      | some n =>
          let z : Finset PyVal :=
            match zeroes with
            | some z => z
            | none =>
                match gs with
                | none => ∅
                | some g => (g.toFinset \ p) \ n
          Except.ok (p, n, z)
  | none =>
      match data with
      | some (InitData.elem X) => Except.ok (X._p, X._n, X._z)
      | some (InitData.tup l) => tupleParts gs l
      | some (InitData.dict kp kpositives kn knegatives kz kzeroes) =>
          Except.ok ((kpositives <|> kp).getD ∅, (knegatives <|> kn).getD ∅,
            (kzeroes <|> kz).getD ∅)
      | none =>
          Except.error (PyErr.valueError
            "Either positives and negatives are set or data is a tuple, OrientedMatroidELement or a dict")

/-- Ground-set reconciliation of __init__ (lines 190-207): with no ground
set, `_g` is the list of all mentioned labels; with one, every mentioned
label must lie in it and every ground-set element must carry a sign.  The
dead `if self._z is None` of line 198 is omitted (`_z` is always a set by
line 188). -/
def ssFinish (par : Option (List PyVal)) (gs : Option (List PyVal))
    (p n z : Finset PyVal) : Except PyErr SignedSubsetElement :=
  match gs with
  | none => Except.ok ⟨p, n, z, pyList ((p ∪ n) ∪ z), par⟩
  | some g =>
      if (p ∪ n) ∪ z ⊆ g.toFinset then
        if g.toFinset ⊆ (p ∪ n) ∪ z then
          Except.ok ⟨p, n, z, g, par⟩
        else
          Except.error (PyErr.valueError
            "Every element must be either positive, negative or zero")
      else Except.error (PyErr.valueError "Elements must appear in groundset")

/-- Method __init__ (lines 91-209) for calls where a parent object is
supplied (so the positional-shuffling fallback of lines 104-108 does not
fire): `par` is the ground set the parent reports, used when the
`groundset` argument is absent (lines 97-101). -/
def init (par : Option (List PyVal)) (data : Option InitData)
    (groundset : Option (List PyVal))
    (positives negatives zeroes : Option (Finset PyVal)) :
    Except PyErr SignedSubsetElement := do
  let gs := groundset <|> par
  let t ← ssParts data gs positives negatives zeroes
  ssFinish par gs t.1 t.2.1 t.2.2

/-- Per-element sign resolution of composition (lines 451-466): the sign of
self if nonzero, else the sign of other; other is only queried when self's
sign is zero, so a lookup error in other surfaces only then. -/
def compSign (X Y : SignedSubsetElement) (e : PyVal) : Except PyErr Int := do
  let x ← X.call e
  if x = 1 then pure 1
  else if x = -1 then pure (-1)
  else do
    let y ← Y.call e
    if y = 1 then pure 1
    else if y = -1 then pure (-1)
    else pure 0

/-- Loop of composition (lines 448-466): partition the ground-set labels
into the positive, negative and zero lists of the result, in order. -/
def compLoop (X Y : SignedSubsetElement) :
    List PyVal → Except PyErr (List PyVal × List PyVal × List PyVal)
  | [] => Except.ok ([], [], [])
  | e :: r => do
      let s ← compSign X Y e
      let t ← compLoop X Y r
      if s = 1 then pure (e :: t.1, t.2.1, t.2.2)
      else if s = -1 then pure (t.1, e :: t.2.1, t.2.2)
      else pure (t.1, t.2.1, e :: t.2.2)

/-- Method composition (lines 426-467): walk self's ground set resolving
each sign, then build the result through __init__ with the explicit
positives/negatives/zeroes lists and the parent (whose reported ground set
becomes the result's, line 467 passing no groundset argument). -/
def composition (X Y : SignedSubsetElement) : Except PyErr SignedSubsetElement := do
  let t ← compLoop X Y X._g
  init X.par none none (some t.1.toFinset) (some t.2.1.toFinset) (some t.2.2.toFinset)

/-- Method reorientation (lines 478-501) for a set-valued change set (a
Python set argument is never equal to a primitive ground-set label, so the
single-label auto-wrap of line 487 does not fire for it): every member must
lie in the ground set, then positives and negatives are swapped on the
change set and the result is built through __init__ with the element's own
ground set (line 501). -/
def reorientation (X : SignedSubsetElement) (change_set : Finset PyVal) :
    Except PyErr SignedSubsetElement :=
  if change_set ⊆ X._g.toFinset then
    init X.par none (some X._g)
      (some ((X.positives \ change_set) ∪ (X.negatives ∩ change_set)))
      (some ((X.negatives \ change_set) ∪ (X.positives ∩ change_set)))
      none
  else Except.error (PyErr.valueError "is not in the ground set")

/-- Method is_tope (lines 525-541): `hasFaceLattice` models
`getattr(self.parent(), 'face_lattice', None) is not None` and `topes`
models `self.parent().topes()`.  The source raises its TypeError when the
attribute IS present, and only otherwise falls through to the membership
test. -/
def is_tope (hasFaceLattice : Bool) (topes : List SignedSubsetElement)
    (X : SignedSubsetElement) : Except PyErr Bool :=
  if hasFaceLattice then
    Except.error (PyErr.typeError
      "Topes are only implemented if .face_lattice() is implemented")
  else Except.ok (memPy X topes)

end SignedSubsetElement

/-- State of a CovectorOrientedMatroid after __init__ (lines 86-105): the
normalized covector list and the ground-set list. -/
structure CovectorOrientedMatroid where
  covectors : List SignedSubsetElement
  groundset : List PyVal

namespace CovectorOrientedMatroid

open SignedSubsetElement

/-- Inner check of the weak-elimination search (lines 144-146): for every
`f` outside the separation set, compare `Z(f)` with `(X∘Y)(f)`; the flag
ends up true only when every comparison agrees, and every comparison is
evaluated (each may raise). -/
def zMatches (Z xy : SignedSubsetElement) : List PyVal → Except PyErr Bool
  | [] => Except.ok true
  | f :: r => do
      let a ← Z.call f
      let b ← xy.call f
      let rest ← zMatches Z xy r
      pure ((a == b) && rest)

/-- Witness scan of the weak-elimination check (lines 138-146): scan the
covectors; a candidate with `Z(e) = 0` sets the flag, which the inner
comparison may clear again; once the flag survives a candidate, the
`if found: break` of line 140 stops the scan. -/
def findZ (cvs : List SignedSubsetElement) (e : PyVal)
    (xy : SignedSubsetElement) (ze : List PyVal) : Except PyErr Bool :=
  match cvs with
  | [] => Except.ok false
  | Z :: rest => do
      let s ← Z.call e
      if s = 0 then do
        let m ← zMatches Z xy ze
        if m then Except.ok true else findZ rest e xy ze
      else findZ rest e xy ze

/-- Loop over the separation set (lines 137-148): each element needs a
surviving witness, else ValueError. -/
def elimLoop (cvs : List SignedSubsetElement) (xy : SignedSubsetElement)
    (ze : List PyVal) : List PyVal → Except PyErr Unit
  | [] => Except.ok ()
  | e :: r => do
      let f ← findZ cvs e xy ze
      if f then elimLoop cvs xy ze r
      else Except.error (PyErr.valueError "weak elimination failed")

/-- Inner Y-loop of is_valid (lines 129-148): composition closure (line
131) then weak elimination for the pair. -/
def checkYs (cvs : List SignedSubsetElement) (gset : List PyVal)
    (X : SignedSubsetElement) : List SignedSubsetElement → Except PyErr Unit
  | [] => Except.ok ()
  | Y :: rest => do
      let c ← X.composition Y
      if memPy c cvs then do
        let E := X.separation_set Y
        let ze := pyList (gset.toFinset \ E)
        let xy ← X.composition Y
        let _u ← elimLoop cvs xy ze (pyList E)
        checkYs cvs gset X rest
      else Except.error (PyErr.valueError "Composition must be in vectors")

/-- Outer X-loop of is_valid (lines 122-153) threading the zero flag.  The
source initializes `zero_fouind` (a typo) and assigns `zero_found` only
when a zero covector is seen (line 125); the flag is therefore an undefined
name when the loop never assigns it, and reading it at line 150 raises
NameError.  The Option models defined-ness. -/
def checkXs (cvs : List SignedSubsetElement) (gset : List PyVal) :
    List SignedSubsetElement → Option Bool → Except PyErr Bool
  | [], zf =>
      match zf with
      | none => Except.error (PyErr.nameError "zero_found")
      | some b =>
          if b then Except.ok true
          else Except.error (PyErr.valueError "Empty set is required")
  | X :: rest, zf => do
      let zb ← X.is_zero
      let zf' := if zb then some true else zf
      if memPy (neg X) cvs then do
        let _u ← checkYs cvs gset X cvs
        checkXs cvs gset rest zf'
      else Except.error (PyErr.valueError "Every element needs an opposite")

/-- Method is_valid (lines 115-153). -/
def is_valid (M : CovectorOrientedMatroid) : Except PyErr Bool :=
  checkXs M.covectors M.groundset M.covectors none

/-- Relation generation of face_poset (line 182):
`[(Y,X) for X in els for Y in els if Y.is_conformal_with(X) and Y.support().issubset(X.support())]`. -/
def face_poset_rels (els : List SignedSubsetElement) :
    List (SignedSubsetElement × SignedSubsetElement) :=
  els.flatMap (fun X => els.filterMap (fun Y =>
    if Y.is_conformal_with X && decide (Y.support ⊆ X.support) then some (Y, X)
    else none))

end CovectorOrientedMatroid

/-- Elements handed to the external lattice constructor by face_lattice
(lines 185-199): the covectors plus the synthetic top (the Python int 1,
which compares unequal to every SignedSubsetElement, modeled as a separate
constructor). -/
inductive FaceElt where
  | cov (X : SignedSubsetElement)
  | top
deriving DecidableEq

namespace CovectorOrientedMatroid

/-- Python equality on lattice elements: covectors compare by __eq__, the
int top compares equal only to itself, and an int never equals a
SignedSubsetElement (both __eq__ directions return False/NotImplemented). -/
def pyFaceEq : FaceElt → FaceElt → Bool
  | FaceElt.cov X, FaceElt.cov Y => SignedSubsetElement.pyEqb X Y
  | FaceElt.top, FaceElt.top => true
  | _, _ => false

/-- copy.deepcopy on one covector: the copy protocol invokes
`element.__deepcopy__(memo)`, but the method at signed_subset_element.py
line 339 is `def __deepcopy__(self):` with no memo parameter, so the call
raises TypeError before any copying happens. -/
def deepcopyElement (_X : SignedSubsetElement) :
    Except PyErr SignedSubsetElement :=
  Except.error (PyErr.typeError
    "__deepcopy__ takes 1 positional argument but 2 were given")

/-- copy.deepcopy of the covector list (line 192): a list is deep-copied
entry by entry, so the first covector's broken __deepcopy__ raises; only
the empty list survives. -/
def deepcopyList :
    List SignedSubsetElement → Except PyErr (List SignedSubsetElement)
  | [] => Except.ok []
  | X :: r => do
      let c ← deepcopyElement X
      let t ← deepcopyList r
      pure (c :: t)

/-- Method face_lattice (lines 185-199): deepcopy the covectors (line 192),
run the same relation comprehension as face_poset over the copies (line
193), append one `(i, top)` pair per covector and the top element (lines
196-198), and hand `(elements, relations)` to LatticePoset.  The deepcopy
raises TypeError whenever the covector list is nonempty, so only the
degenerate empty system reaches the constructor. -/
def face_lattice_data (els : List SignedSubsetElement) :
    Except PyErr (List FaceElt × List (FaceElt × FaceElt)) := do
  let dels ← deepcopyList els
  let rels := (dels.flatMap (fun X => dels.filterMap (fun Y =>
    if Y.is_conformal_with X && decide (Y.support ⊆ X.support) then
      some (FaceElt.cov Y, FaceElt.cov X)
    else none)))
    ++ dels.map (fun i => (FaceElt.cov i, FaceElt.top))
  Except.ok (dels.map FaceElt.cov ++ [FaceElt.top], rels)

end CovectorOrientedMatroid

namespace SignedSubsetElement

/-- Specification helper: a label is resolvable in an element when __call__
succeeds on it, i.e. it carries some sign. -/
def Resolvable (X : SignedSubsetElement) (e : PyVal) : Prop :=
  e ∈ X._p ∨ e ∈ X._n ∨ e ∈ X._z

instance (X : SignedSubsetElement) (e : PyVal) : Decidable (Resolvable X e) := by
  unfold Resolvable; infer_instance

/-- Specification helper: the sign __call__ computes, with the same
positives-first priority. -/
def sgn (X : SignedSubsetElement) (e : PyVal) : Int :=
  if e ∈ X._p then 1 else if e ∈ X._n then -1 else 0

/-- Specification helper: the sign composition resolves at a label, self's
sign when nonzero, else other's. -/
def csign (X Y : SignedSubsetElement) (e : PyVal) : Int :=
  if sgn X e ≠ 0 then sgn X e else sgn Y e

/-- Specification helper: the integer sign a recognized ternary token
normalizes to, in the classification order of lines 149-154. -/
def tokInt (j : PyVal) : Int :=
  if tokNeg j then -1 else if tokPos j then 1 else 0

/-- Specification helper: the Python value __iter__ yields for a position
constructed from a recognized token. -/
def tokNorm (j : PyVal) : PyVal := PyVal.int (tokInt j)

end SignedSubsetElement

/-!
Theorems.  Each claim of the specification is settled by one theorem below;
shared lemmas precede them.
-/

open SignedSubsetElement CovectorOrientedMatroid

theorem recognizedTok_iff (j : PyVal) :
    recognizedTok j = true ↔ (tokNeg j = true ∨ tokPos j = true ∨ tokZero j = true) := by
  cases j <;>
    simp [recognizedTok, tokNeg, tokPos, tokZero, beq_iff_eq] <;> tauto

/-- C1: the source raises its capability TypeError in is_tope exactly when
the parent DOES expose face_lattice, the reverse of the documented intent
(the docstring warns face_lattice is required); on a parent without the
attribute it instead proceeds to the tope-membership test. -/
theorem is_tope_capability_error_iff_face_lattice_present :
    ∀ (hasFL : Bool) (tps : List SignedSubsetElement) (X : SignedSubsetElement),
      (∃ m, is_tope hasFL tps X = Except.error (PyErr.typeError m)) ↔ hasFL = true := by
  intro hasFL tps X
  cases hasFL <;> simp [is_tope]

/-- C2: on a covector system whose collection has no zero element at all
(here: an empty collection over ground set ['e']), is_valid does not reach
its "Empty set is required" ValueError; because of the zero_fouind typo the
flag variable is never initialized, and reading it raises NameError. -/
theorem is_valid_no_zero_raises_name_error :
    is_valid ⟨[], [PyVal.str "e"]⟩ = Except.error (PyErr.nameError "zero_found") := by
  rfl

/-- C3 counterexample: for X = (+) and Y = (0) on ground set [0], the
separation set is empty and is_conformal_with holds, yet P(X) ⊆ P(Y) fails
and is_restriction_of is false — so conformality is not equivalent to the
sign-containment condition and the two methods compute different
predicates. -/
theorem conformal_not_restriction_at_plus_zero :
    is_conformal_with ⟨{PyVal.int 0}, ∅, ∅, [PyVal.int 0], none⟩
        ⟨∅, ∅, {PyVal.int 0}, [PyVal.int 0], none⟩ = true ∧
    separation_set ⟨{PyVal.int 0}, ∅, ∅, [PyVal.int 0], none⟩
        ⟨∅, ∅, {PyVal.int 0}, [PyVal.int 0], none⟩ = ∅ ∧
    is_restriction_of ⟨{PyVal.int 0}, ∅, ∅, [PyVal.int 0], none⟩
        ⟨∅, ∅, {PyVal.int 0}, [PyVal.int 0], none⟩ = false := by
  decide

/-- C3 (amended): is_conformal_with(X,Y) holds iff S(X,Y) = ∅, and
is_restriction_of(X,Y) holds iff P(X) ⊆ P(Y) and N(X) ⊆ N(Y); when Y's
positives and negatives are disjoint, restriction implies conformality,
but the two predicates are not equivalent in general. -/
theorem conformal_and_restriction_spec :
    ∀ X Y : SignedSubsetElement,
      (X.is_conformal_with Y = true ↔ X.separation_set Y = ∅) ∧
      (X.is_restriction_of Y = true ↔
        X.positives ⊆ Y.positives ∧ X.negatives ⊆ Y.negatives) ∧
      (Y.positives ∩ Y.negatives = ∅ → X.is_restriction_of Y = true →
        X.is_conformal_with Y = true) := by
  intro X Y
  refine ⟨?_, ?_, ?_⟩
  · simp [is_conformal_with, Finset.card_eq_zero]
  · simp [is_restriction_of]
  · intro hd hr
    simp only [is_restriction_of, Bool.and_eq_true, decide_eq_true_eq] at hr
    simp only [is_conformal_with, beq_iff_eq, Finset.card_eq_zero,
      separation_set, Finset.union_eq_empty]
    constructor
    · apply Finset.subset_empty.mp
      intro a ha
      rw [Finset.mem_inter] at ha
      rw [← hd]
      exact Finset.mem_inter.mpr ⟨hr.1 ha.1, ha.2⟩
    · apply Finset.subset_empty.mp
      intro a ha
      rw [Finset.mem_inter] at ha
      rw [← hd]
      exact Finset.mem_inter.mpr ⟨ha.2, hr.2 ha.1⟩

theorem conformal_and_restriction_spec_witness :
    is_conformal_with ⟨{PyVal.int 1}, ∅, ∅, [PyVal.int 1], none⟩
      ⟨{PyVal.int 1}, ∅, ∅, [PyVal.int 1], none⟩ = true :=
  (conformal_and_restriction_spec _ _).2.2 (by decide) (by decide)

/-- C4 counterexample: the constructor accepts positives = negatives = the
single ground-set element 0 (nothing checks disjointness of the three
sets), so 0 does not belong to exactly one of P, N, Z. -/
theorem overlapping_signs_accepted :
    init none none (some [PyVal.int 0]) (some {PyVal.int 0})
        (some {PyVal.int 0}) none
      = Except.ok ⟨{PyVal.int 0}, {PyVal.int 0}, ∅, [PyVal.int 0], none⟩ ∧
    (⟨{PyVal.int 0}, {PyVal.int 0}, ∅, [PyVal.int 0], none⟩
        : SignedSubsetElement)._p ∩
      (⟨{PyVal.int 0}, {PyVal.int 0}, ∅, [PyVal.int 0], none⟩
        : SignedSubsetElement)._n ≠ ∅ := by
  decide

/-- C6 counterexample: constructing from the ternary vector ['+'] over
ground set [0] succeeds, but reading the element back yields the integer
sign 1, not the original token '+'. -/
theorem roundtrip_fails_on_plus_token :
    (init none (some (InitData.tup [PyVal.str "+"])) (some [PyVal.int 0])
        none none none).bind readbackVals = Except.ok [PyVal.int 1] ∧
    ([PyVal.int 1] : List PyVal) ≠ [PyVal.str "+"] := by
  decide

/-- C7 counterexample: the tuple ('x','y') contains no recognized sign
token, yet with ground set ['x','y'] construction succeeds: because the
first entry is unrecognized the tuple is silently reinterpreted as the
pair (positives, negatives) instead of raising the encoding error. -/
theorem unrecognized_head_reinterpreted :
    init none (some (InitData.tup [PyVal.str "x", PyVal.str "y"]))
        (some [PyVal.str "x", PyVal.str "y"]) none none none
      = Except.ok ⟨{PyVal.str "x"}, {PyVal.str "y"}, ∅,
          [PyVal.str "x", PyVal.str "y"], none⟩ := by
  decide

/-- C5: the relation list face_poset generates contains (Y,X) exactly when
both are covectors of the system, their separation set is empty, and
supp(Y) ⊆ supp(X) — this half of the claim holds; but face_lattice never
hands the lattice constructor any relations for a nonempty covector list:
the deepcopy of line 192 calls the broken `__deepcopy__(self)` of
signed_subset_element.py line 339 with a memo argument and raises
TypeError first.  Only the empty system reaches LatticePoset (with just
the synthetic top, which compares unequal, in Python equality and in Lean
equality, to every covector). -/
theorem face_poset_spec_and_face_lattice_deepcopy_error :
    ∀ (els : List SignedSubsetElement) (A B : SignedSubsetElement),
      ((A, B) ∈ face_poset_rels els ↔
        (A ∈ els ∧ B ∈ els ∧ A.separation_set B = ∅ ∧ A.support ⊆ B.support)) ∧
      (∀ (X0 : SignedSubsetElement) (r : List SignedSubsetElement),
        face_lattice_data (X0 :: r) = Except.error (PyErr.typeError
          "__deepcopy__ takes 1 positional argument but 2 were given")) ∧
      (face_lattice_data [] = Except.ok ([FaceElt.top], [])) ∧
      (pyFaceEq (FaceElt.cov A) FaceElt.top = false ∧
        FaceElt.cov A ≠ FaceElt.top) := by
  intro els A B
  refine ⟨?_, ?_, rfl, rfl, by simp⟩
  · constructor
    · intro h
      simp only [face_poset_rels, List.mem_flatMap, List.mem_filterMap] at h
      obtain ⟨X, hX, Y, hY, hif⟩ := h
      by_cases hc :
          (Y.is_conformal_with X && decide (Y.support ⊆ X.support)) = true
      · rw [if_pos hc] at hif
        simp only [Option.some.injEq, Prod.mk.injEq] at hif
        obtain ⟨h1, h2⟩ := hif
        subst h1; subst h2
        simp only [Bool.and_eq_true, decide_eq_true_eq, is_conformal_with,
          beq_iff_eq, Finset.card_eq_zero] at hc
        exact ⟨hY, hX, hc.1, hc.2⟩
      · rw [if_neg hc] at hif
        exact Option.noConfusion hif
    · rintro ⟨hA, hB, hsep, hsupp⟩
      simp only [face_poset_rels, List.mem_flatMap, List.mem_filterMap]
      refine ⟨B, hB, A, hA, ?_⟩
      rw [if_pos]
      simp only [Bool.and_eq_true, decide_eq_true_eq, is_conformal_with,
        beq_iff_eq, Finset.card_eq_zero]
      exact ⟨hsep, hsupp⟩
  · intro X0 r
    simp only [face_lattice_data, deepcopyList, deepcopyElement, bind,
      Except.bind]

theorem ssFinish_some_ok {par : Option (List PyVal)} {g : List PyVal}
    {p n z : Finset PyVal} {X : SignedSubsetElement}
    (h : ssFinish par (some g) p n z = Except.ok X) :
    X = ⟨p, n, z, g, par⟩ ∧ (p ∪ n) ∪ z = g.toFinset := by
  simp only [ssFinish] at h
  split_ifs at h with h1 h2
  injection h with h
  exact ⟨h.symm, Finset.Subset.antisymm h1 h2⟩

/-- C4 (amended): whenever the constructor accepts any input with a
supplied ground set, every ground-set element has a sign in {1, -1, 0}
under __call__ and belongs to at least one of P, N, Z, whose union is
exactly the ground set; the three sets need not be pairwise disjoint (see
the counterexample with overlapping explicit positives and negatives), so
"exactly one" fails. -/
theorem constructed_sign_totality :
    ∀ (par : Option (List PyVal)) (data : Option InitData) (g : List PyVal)
      (pos ne ze : Option (Finset PyVal)) (X : SignedSubsetElement),
      init par data (some g) pos ne ze = Except.ok X →
      X._g = g ∧ (X._p ∪ X._n) ∪ X._z = g.toFinset ∧
      ∀ e ∈ g, ∃ s, X.call e = Except.ok s ∧ (s = 1 ∨ s = -1 ∨ s = 0) ∧
        Resolvable X e := by
  intro par data g pos ne ze X h
  unfold init at h
  simp only [Option.some_orElse] at h
  cases hsp : ssParts data (some g) pos ne ze with
  | error e =>
      rw [hsp] at h
      simp only [bind, Except.bind] at h
      exact Except.noConfusion h
  | ok t =>
      rw [hsp] at h
      simp only [bind, Except.bind] at h
      obtain ⟨hX, hu⟩ := ssFinish_some_ok h
      subst hX
      refine ⟨rfl, hu, ?_⟩
      intro e he
      have he' : e ∈ (t.1 ∪ t.2.1) ∪ t.2.2 := by
        rw [hu]; exact List.mem_toFinset.mpr he
      by_cases hp : e ∈ t.1
      · exact ⟨1, by simp [call, hp], Or.inl rfl, Or.inl hp⟩
      · by_cases hn : e ∈ t.2.1
        · exact ⟨-1, by simp [call, hp, hn], Or.inr (Or.inl rfl),
            Or.inr (Or.inl hn)⟩
        · have hz : e ∈ t.2.2 := by
            simp only [Finset.mem_union, hp, hn, false_or] at he'
            exact he'
          exact ⟨0, by simp [call, hp, hn, hz], Or.inr (Or.inr rfl),
            Or.inr (Or.inr hz)⟩

theorem constructed_sign_totality_witness :
    ∃ X, init none (some (InitData.tup [PyVal.int 1])) (some [PyVal.int 0])
        none none none = Except.ok X ∧
      (X._p ∪ X._n) ∪ X._z = ([PyVal.int 0] : List PyVal).toFinset := by
  have hinit : init none (some (InitData.tup [PyVal.int 1]))
      (some [PyVal.int 0]) none none none
      = Except.ok ⟨{PyVal.int 0}, ∅, ∅, [PyVal.int 0], none⟩ := by decide
  exact ⟨_, hinit, (constructed_sign_totality _ _ _ _ _ _ _ hinit).2.1⟩

theorem tokNeg_pos_false {j : PyVal} (h : tokNeg j = true) : tokPos j = false := by
  cases j with
  | int m =>
      have hm : m = -1 := by
        by_contra hm
        simp [tokNeg, hm] at h
      subst hm; decide
  | str s =>
      have hs : s = "-" := by
        by_contra hs
        simp [tokNeg, hs] at h
      subst hs; decide

theorem tokNeg_zero_false {j : PyVal} (h : tokNeg j = true) : tokZero j = false := by
  cases j with
  | int m =>
      have hm : m = -1 := by
        by_contra hm
        simp [tokNeg, hm] at h
      subst hm; decide
  | str s =>
      have hs : s = "-" := by
        by_contra hs
        simp [tokNeg, hs] at h
      subst hs; decide

theorem tokPos_zero_false {j : PyVal} (h : tokPos j = true) : tokZero j = false := by
  cases j with
  | int m =>
      have hm : m = 1 := by
        by_contra hm
        simp [tokPos, hm] at h
      subst hm; decide
  | str s =>
      have hs : s = "+" := by
        by_contra hs
        simp [tokPos, hs] at h
      subst hs; decide

theorem tokPos_neg_false {j : PyVal} (h : tokPos j = true) : tokNeg j = false := by
  by_cases hn : tokNeg j = true
  · rw [tokNeg_pos_false hn] at h
    exact Bool.noConfusion h
  · simpa using hn

theorem tokZero_neg_false {j : PyVal} (h : tokZero j = true) : tokNeg j = false := by
  by_cases hn : tokNeg j = true
  · rw [tokNeg_zero_false hn] at h
    exact Bool.noConfusion h
  · simpa using hn

theorem tokZero_pos_false {j : PyVal} (h : tokZero j = true) : tokPos j = false := by
  by_cases hp : tokPos j = true
  · rw [tokPos_zero_false hp] at h
    exact Bool.noConfusion h
  · simpa using hp

theorem vecLoop_err :
    ∀ (l : List PyVal) (gs : Option (List PyVal)) (i : Nat),
      (∃ j ∈ l, recognizedTok j = false) →
      vecLoop gs i l = Except.error (PyErr.valueError "Must be tuple of -1, 0, 1") := by
  intro l
  induction l with
  | nil =>
      intro gs i h
      obtain ⟨j, hj, _⟩ := h
      exact absurd hj (List.not_mem_nil j)
  | cons j rest ih =>
      intro gs i h
      by_cases hr : recognizedTok j = true
      · have hbad : ∃ k ∈ rest, recognizedTok k = false := by
          obtain ⟨k, hk, hkf⟩ := h
          rcases List.mem_cons.mp hk with rfl | hk'
          · rw [hr] at hkf
            exact Bool.noConfusion hkf
          · exact ⟨k, hk', hkf⟩
        have hrec := ih gs (i + 1) hbad
        simp only [vecLoop]
        split_ifs <;> simp [hrec, bind, Except.bind]
      · have hr' : recognizedTok j = false := by simpa using hr
        have hno : ¬(tokNeg j = true ∨ tokPos j = true ∨ tokZero j = true) := by
          intro hd
          rw [(recognizedTok_iff j).mpr hd] at hr'
          exact Bool.noConfusion hr'
        have hn : ¬ tokNeg j = true := fun c => hno (Or.inl c)
        have hp : ¬ tokPos j = true := fun c => hno (Or.inr (Or.inl c))
        have hz : ¬ tokZero j = true := fun c => hno (Or.inr (Or.inr c))
        simp only [vecLoop]
        rw [if_neg hn, if_neg hp, if_neg hz]

/-- C7 (amended): a tuple whose first entry is a recognized sign token and
whose length matches the supplied ground set (when one is supplied) fails
with the encoding error ValueError("Must be tuple of -1, 0, 1") as soon as
any entry is an unrecognized token; but when the FIRST entry is
unrecognized the tuple is not treated as a ternary vector at all — it is
reinterpreted as a pair/triple of label collections and can be accepted
without any error (see the counterexample). -/
theorem bad_token_after_recognized_head_errors :
    ∀ (j0 : PyVal) (rest : List PyVal) (gs : Option (List PyVal)),
      recognizedTok j0 = true →
      (∀ g, gs = some g → (j0 :: rest).length = g.length) →
      (∃ j ∈ j0 :: rest, recognizedTok j = false) →
      init none (some (InitData.tup (j0 :: rest))) gs none none none =
        Except.error (PyErr.valueError "Must be tuple of -1, 0, 1") := by
  intro j0 rest gs h0 hlen hbad
  have herr := vecLoop_err (j0 :: rest) gs 0 hbad
  cases gs with
  | none =>
      simp only [init, ssParts, tupleParts, Option.orElse_none]
      rw [if_pos h0]
      simp [herr, bind, Except.bind]
  | some g =>
      have hl := hlen g rfl
      simp only [init, ssParts, tupleParts, Option.orElse_none]
      rw [if_pos h0, if_neg (fun hc => hc hl)]
      simp [herr, bind, Except.bind]

theorem bad_token_after_recognized_head_errors_witness :
    init none (some (InitData.tup [PyVal.int 1, PyVal.int 5]))
        (some [PyVal.int 0, PyVal.int 1]) none none none =
      Except.error (PyErr.valueError "Must be tuple of -1, 0, 1") :=
  bad_token_after_recognized_head_errors (PyVal.int 1) [PyVal.int 5]
    (some [PyVal.int 0, PyVal.int 1]) (by decide)
    (fun g hg => by cases hg; rfl)
    ⟨PyVal.int 5, by decide, by decide⟩

theorem vecLoop_zip (g : List PyVal) :
    ∀ (v : List PyVal) (i : Nat), i + v.length = g.length →
      (∀ j ∈ v, recognizedTok j = true) →
      vecLoop (some g) i v = Except.ok
        ( ((((g.drop i).zip v).filter (fun q => tokPos q.2)).map Prod.fst).toFinset,
          ((((g.drop i).zip v).filter (fun q => tokNeg q.2)).map Prod.fst).toFinset,
          ((((g.drop i).zip v).filter (fun q => tokZero q.2)).map Prod.fst).toFinset ) := by
  intro v
  induction v with
  | nil =>
      intro i hi hrec
      simp [vecLoop, List.zip_nil_right]
  | cons j rest ih =>
      intro i hi hrec
      have hilt : i < g.length := by
        simp only [List.length_cons] at hi
        omega
      have hdrop : g.drop i = g[i] :: g.drop (i + 1) :=
        List.drop_eq_getElem_cons hilt
      have hlabel : g.getD i (PyVal.int 0) = g[i] :=
        List.getD_eq_getElem g _ hilt
      have hrecj : recognizedTok j = true := hrec j (List.mem_cons_self j rest)
      have hrest : ∀ k ∈ rest, recognizedTok k = true :=
        fun k hk => hrec k (List.mem_cons_of_mem _ hk)
      have hlen : (i + 1) + rest.length = g.length := by
        simp only [List.length_cons] at hi
        omega
      have ihr := ih (i + 1) hlen hrest
      rw [hdrop, List.zip_cons_cons]
      rcases (recognizedTok_iff j).mp hrecj with hn | hp | hz
      · have hpf := tokNeg_pos_false hn
        have hzf := tokNeg_zero_false hn
        simp only [vecLoop, hlabel, hn, if_true, ihr, bind, Except.bind,
          List.filter_cons, hpf, hzf, Bool.false_eq_true, if_false,
          List.map_cons, List.toFinset_cons, pure, Except.pure]
      · have hnf := tokPos_neg_false hp
        have hzf := tokPos_zero_false hp
        simp only [vecLoop, hlabel, hp, hnf, hzf, Bool.false_eq_true, if_false,
          if_true, ihr, bind, Except.bind, List.filter_cons,
          List.map_cons, List.toFinset_cons, pure, Except.pure]
      · have hnf := tokZero_neg_false hz
        have hpf := tokZero_pos_false hz
        simp only [vecLoop, hlabel, hz, hnf, hpf, Bool.false_eq_true,
          if_false, if_true, ihr, bind, Except.bind, List.filter_cons,
          List.map_cons, List.toFinset_cons, pure, Except.pure]

theorem zip_fst_unique {g : List PyVal} (hnd : g.Nodup) :
    ∀ {v : List PyVal} {e a b : PyVal},
      (e, a) ∈ g.zip v → (e, b) ∈ g.zip v → a = b := by
  induction g with
  | nil => intro v e a b ha; simp at ha
  | cons x g' ih =>
      intro v e a b ha hb
      obtain ⟨hx, hnd'⟩ := List.nodup_cons.mp hnd
      cases v with
      | nil => simp at ha
      | cons y v' =>
          rw [List.zip_cons_cons] at ha hb
          rcases List.mem_cons.mp ha with ha1 | ha2 <;>
            rcases List.mem_cons.mp hb with hb1 | hb2
          · injection ha1 with h1 h2
            injection hb1 with h3 h4
            rw [h2, h4]
          · injection ha1 with h1 h2
            exfalso
            exact hx (h1 ▸ (List.of_mem_zip hb2).1)
          · injection hb1 with h1 h2
            exfalso
            exact hx (h1 ▸ (List.of_mem_zip ha2).1)
          · exact ih hnd' ha2 hb2

theorem call_from_zip {g v : List PyVal} (hnd : g.Nodup)
    (hrec : ∀ k ∈ v, recognizedTok k = true)
    (gl : List PyVal) (pr : Option (List PyVal)) :
    ∀ {e j : PyVal}, (e, j) ∈ g.zip v →
    SignedSubsetElement.call
      ⟨(((g.zip v).filter (fun q => tokPos q.2)).map Prod.fst).toFinset,
       (((g.zip v).filter (fun q => tokNeg q.2)).map Prod.fst).toFinset,
       (((g.zip v).filter (fun q => tokZero q.2)).map Prod.fst).toFinset,
       gl, pr⟩ e = Except.ok (tokInt j) := by
  intro e j hmem
  have hj : recognizedTok j = true := hrec j (List.of_mem_zip hmem).2
  have hmemset : ∀ (p : PyVal → Bool),
      e ∈ (((g.zip v).filter (fun q => p q.2)).map Prod.fst).toFinset ↔
        p j = true := by
    intro p
    simp only [List.mem_toFinset, List.mem_map, List.mem_filter]
    constructor
    · rintro ⟨⟨q1, q2⟩, ⟨hq, hpq⟩, hqa⟩
      simp only at hqa hpq
      subst hqa
      rw [zip_fst_unique hnd hmem hq]
      exact hpq
    · intro hp
      exact ⟨(e, j), ⟨hmem, hp⟩, rfl⟩
  rcases (recognizedTok_iff j).mp hj with hn | hp | hz
  · have h1 : tokPos j = false := tokNeg_pos_false hn
    simp only [call, hmemset, h1, Bool.false_eq_true, if_false, hn, if_true,
      tokInt]
  · have h1 : tokNeg j = false := tokPos_neg_false hp
    simp only [call, hmemset, h1, Bool.false_eq_true, if_false, hp, if_true,
      tokInt]
  · have h1 : tokNeg j = false := tokZero_neg_false hz
    have h2 : tokPos j = false := tokZero_pos_false hz
    simp only [call, hmemset, h1, h2, Bool.false_eq_true, if_false, hz,
      if_true, tokInt]

theorem zip_filters_union {g v : List PyVal} (hlen : v.length = g.length)
    (hrec : ∀ k ∈ v, recognizedTok k = true) :
    ((((g.zip v).filter (fun q => tokPos q.2)).map Prod.fst).toFinset ∪
      (((g.zip v).filter (fun q => tokNeg q.2)).map Prod.fst).toFinset) ∪
      (((g.zip v).filter (fun q => tokZero q.2)).map Prod.fst).toFinset
      = g.toFinset := by
  ext a
  simp only [Finset.mem_union, List.mem_toFinset, List.mem_map,
    List.mem_filter]
  constructor
  · rintro ((⟨q, ⟨hq, _⟩, rfl⟩ | ⟨q, ⟨hq, _⟩, rfl⟩) | ⟨q, ⟨hq, _⟩, rfl⟩) <;>
      · obtain ⟨q1, q2⟩ := q
        exact (List.of_mem_zip hq).1
  · intro ha
    have hmm : a ∈ (g.zip v).map Prod.fst := by
      rw [List.map_fst_zip g v (le_of_eq hlen.symm)]
      exact ha
    obtain ⟨⟨q1, q2⟩, hq, hqa⟩ := List.mem_map.mp hmm
    simp only at hqa
    subst hqa
    rcases (recognizedTok_iff q2).mp
        (hrec q2 (List.of_mem_zip hq).2) with hn | hp | hz
    · exact Or.inl (Or.inr ⟨(q1, q2), ⟨hq, hn⟩, rfl⟩)
    · exact Or.inl (Or.inl ⟨(q1, q2), ⟨hq, hp⟩, rfl⟩)
    · exact Or.inr ⟨(q1, q2), ⟨hq, hz⟩, rfl⟩

theorem iterLoop_of_calls (X : SignedSubsetElement) :
    ∀ (l : List PyVal) (w : List Int), l.length = w.length →
      (∀ q ∈ l.zip w, X.call q.1 = Except.ok q.2) →
      iterLoop X l = Except.ok w := by
  intro l
  induction l with
  | nil =>
      intro w hw _
      cases w with
      | nil => rfl
      | cons s w' => exact absurd hw (by simp)
  | cons e l' ih =>
      intro w hw hc
      cases w with
      | nil => exact absurd hw (by simp)
      | cons s w' =>
          have h1 := hc (e, s) (by rw [List.zip_cons_cons]; exact List.mem_cons_self _ _)
          have h2 := ih w' (by simpa using hw)
            (fun q hq => hc q (by rw [List.zip_cons_cons]; exact List.mem_cons_of_mem _ hq))
          simp only [iterLoop, h1, h2, bind, Except.bind, pure, Except.pure]

/-- C6 (amended): for every nonempty ternary vector of recognized tokens
whose length matches a supplied duplicate-free ground set, construction
succeeds and reading the element back yields the vector with every token
normalized to its integer sign (1 for 1 and '+', -1 for -1 and '-', 0 for
0, '0' and ''); in particular the original vector is reproduced exactly
when all its entries already are the integers -1, 0, 1, but not when a
string token such as '+' appears (see the counterexample). -/
theorem ternary_roundtrip_normalized :
    ∀ (v g : List PyVal), g.Nodup → v ≠ [] → v.length = g.length →
      (∀ j ∈ v, recognizedTok j = true) →
      ∃ X, init none (some (InitData.tup v)) (some g) none none none =
          Except.ok X ∧
        X.readbackVals = Except.ok (v.map tokNorm) ∧
        ((∀ j ∈ v, ∃ m : Int, j = PyVal.int m) → v.map tokNorm = v) := by
  intro v g hnd hne hlen hrec
  rcases v with _ | ⟨j0, rest⟩
  · exact absurd rfl hne
  have h0 : recognizedTok j0 = true := hrec j0 (List.mem_cons_self j0 rest)
  have hvz := vecLoop_zip g (j0 :: rest) 0 (by simpa using hlen) hrec
  rw [List.drop_zero] at hvz
  have hunion := zip_filters_union hlen hrec
  have hinit : init none (some (InitData.tup (j0 :: rest))) (some g)
      none none none = Except.ok
        ⟨(((g.zip (j0 :: rest)).filter (fun q => tokPos q.2)).map
            Prod.fst).toFinset,
         (((g.zip (j0 :: rest)).filter (fun q => tokNeg q.2)).map
            Prod.fst).toFinset,
         (((g.zip (j0 :: rest)).filter (fun q => tokZero q.2)).map
            Prod.fst).toFinset, g, none⟩ := by
    simp only [init, ssParts, tupleParts, Option.some_orElse]
    rw [if_pos h0, if_neg (fun hc => hc hlen), hvz]
    simp only [bind, Except.bind, ssFinish]
    rw [if_pos (hunion ▸ Finset.Subset.refl _),
      if_pos (hunion ▸ Finset.Subset.refl _)]
  refine ⟨_, hinit, ?_, ?_⟩
  · unfold readbackVals iterSigns
    have hcalls : ∀ q ∈ g.zip ((j0 :: rest).map tokInt),
        SignedSubsetElement.call
          ⟨(((g.zip (j0 :: rest)).filter (fun q => tokPos q.2)).map
              Prod.fst).toFinset,
           (((g.zip (j0 :: rest)).filter (fun q => tokNeg q.2)).map
              Prod.fst).toFinset,
           (((g.zip (j0 :: rest)).filter (fun q => tokZero q.2)).map
              Prod.fst).toFinset, g, none⟩ q.1 = Except.ok q.2 := by
      intro q hq
      rw [List.zip_map_right] at hq
      obtain ⟨⟨q1, q2⟩, hq', rfl⟩ := List.mem_map.mp hq
      exact call_from_zip hnd hrec g none hq'
    have hiter := iterLoop_of_calls _ g ((j0 :: rest).map tokInt)
      (by
        simp only [List.length_map, List.length_cons] at hlen ⊢
        omega) hcalls
    simp only [hiter, bind, Except.bind, pure, Except.pure]
    congr 1
    rw [List.map_map]
    rfl
  · intro hint
    conv_rhs => rw [← List.map_id (j0 :: rest)]
    apply List.map_congr_left
    intro a ha
    obtain ⟨m, rfl⟩ := hint a ha
    rcases (recognizedTok_iff _).mp (hrec _ ha) with hn | hp | hz
    · have hm : m = -1 := by simpa [tokNeg] using hn
      subst hm; decide
    · have hm : m = 1 := by simpa [tokPos] using hp
      subst hm; decide
    · have hm : m = 0 := by simpa [tokZero] using hz
      subst hm; decide

theorem ternary_roundtrip_normalized_witness :
    ∃ X, init none (some (InitData.tup [PyVal.int 1, PyVal.int (-1)]))
        (some [PyVal.int 0, PyVal.int 7]) none none none = Except.ok X ∧
      X.readbackVals =
        Except.ok ([PyVal.int 1, PyVal.int (-1)].map tokNorm) := by
  obtain ⟨X, h1, h2, _⟩ := ternary_roundtrip_normalized
    [PyVal.int 1, PyVal.int (-1)] [PyVal.int 0, PyVal.int 7]
    (by decide) (by decide) (by decide) (by decide)
  exact ⟨X, h1, h2⟩

theorem call_eq_sgn {X : SignedSubsetElement} {e : PyVal} (h : Resolvable X e) :
    X.call e = Except.ok (sgn X e) := by
  unfold call sgn
  by_cases hp : e ∈ X._p
  · simp [hp]
  · by_cases hn : e ∈ X._n
    · simp [hp, hn]
    · have hz : e ∈ X._z := by
        rcases h with h | h | h
        · exact absurd h hp
        · exact absurd h hn
        · exact h
      simp [hp, hn, hz]

theorem sgn_cases (X : SignedSubsetElement) (e : PyVal) :
    sgn X e = 1 ∨ sgn X e = -1 ∨ sgn X e = 0 := by
  unfold sgn
  split_ifs <;> simp

theorem csign_cases (X Y : SignedSubsetElement) (e : PyVal) :
    csign X Y e = 1 ∨ csign X Y e = -1 ∨ csign X Y e = 0 := by
  unfold csign
  split_ifs
  · exact sgn_cases X e
  · exact sgn_cases Y e

theorem compSign_eq {X Y : SignedSubsetElement} {e : PyVal}
    (hx : Resolvable X e) (hy : sgn X e = 0 → Resolvable Y e) :
    compSign X Y e = Except.ok (csign X Y e) := by
  unfold compSign csign
  rw [call_eq_sgn hx]
  simp only [bind, Except.bind]
  rcases sgn_cases X e with h | h | h
  · rw [h]; norm_num [pure, Except.pure]
  · rw [h]; norm_num [pure, Except.pure]
  · rw [h]
    norm_num
    rw [call_eq_sgn (hy h)]
    simp only [bind, Except.bind]
    rcases sgn_cases Y e with h2 | h2 | h2 <;> rw [h2] <;>
      norm_num [pure, Except.pure]

theorem compLoop_eq {X Y : SignedSubsetElement} :
    ∀ (L : List PyVal),
      (∀ e ∈ L, Resolvable X e) →
      (∀ e ∈ L, sgn X e = 0 → Resolvable Y e) →
      compLoop X Y L = Except.ok
        (L.filter (fun e => csign X Y e == 1),
         L.filter (fun e => csign X Y e == -1),
         L.filter (fun e => csign X Y e == 0)) := by
  intro L
  induction L with
  | nil => intro _ _; simp [compLoop]
  | cons e r ih =>
      intro hx hy
      have hce := compSign_eq (hx e (List.mem_cons_self e r))
        (hy e (List.mem_cons_self e r))
      have ihr := ih (fun a ha => hx a (List.mem_cons_of_mem _ ha))
        (fun a ha => hy a (List.mem_cons_of_mem _ ha))
      rcases csign_cases X Y e with h | h | h <;>
        simp [compLoop, hce, ihr, bind, Except.bind, h, List.filter_cons,
          pure, Except.pure]

theorem csign_filters_union (X Y : SignedSubsetElement) (L : List PyVal) :
    (((L.filter (fun e => csign X Y e == 1)).toFinset ∪
      (L.filter (fun e => csign X Y e == -1)).toFinset) ∪
      (L.filter (fun e => csign X Y e == 0)).toFinset) = L.toFinset := by
  ext a
  simp only [Finset.mem_union, List.mem_toFinset, List.mem_filter,
    beq_iff_eq]
  constructor
  · rintro ((⟨h, _⟩ | ⟨h, _⟩) | ⟨h, _⟩) <;> exact h
  · intro ha
    rcases csign_cases X Y a with h | h | h
    · exact Or.inl (Or.inl ⟨ha, h⟩)
    · exact Or.inl (Or.inr ⟨ha, h⟩)
    · exact Or.inr ⟨ha, h⟩

theorem composition_sets {X Y : SignedSubsetElement}
    (hrx : ∀ e ∈ X._g, Resolvable X e)
    (hry : ∀ e ∈ X._g, sgn X e = 0 → Resolvable Y e)
    (hpar : X.par = none ∨ X.par = some X._g) :
    ∃ R, X.composition Y = Except.ok R ∧
      R._p = (X._g.filter (fun e => csign X Y e == 1)).toFinset ∧
      R._n = (X._g.filter (fun e => csign X Y e == -1)).toFinset ∧
      R._z = (X._g.filter (fun e => csign X Y e == 0)).toFinset ∧
      R.par = X.par ∧ (X.par = some X._g → R._g = X._g) := by
  have hcl := compLoop_eq X._g hrx hry
  unfold composition
  rw [hcl]
  simp only [bind, Except.bind]
  rcases hpar with hpar | hpar <;> rw [hpar]
  · simp only [init, ssParts, Option.orElse_none, ssFinish, bind,
      Except.bind]
    exact ⟨_, rfl, rfl, rfl, rfl, rfl, fun hc => Option.noConfusion hc⟩
  · have hu := csign_filters_union X Y X._g
    simp only [init, ssParts, Option.none_orElse, ssFinish, bind,
      Except.bind]
    rw [if_pos (hu ▸ Finset.Subset.refl _), if_pos (hu ▸ Finset.Subset.refl _)]
    exact ⟨_, rfl, rfl, rfl, rfl, rfl, fun _ => rfl⟩

theorem call_composition_result {X Y : SignedSubsetElement}
    {L : List PyVal} {R : SignedSubsetElement}
    (hp : R._p = (L.filter (fun e => csign X Y e == 1)).toFinset)
    (hn : R._n = (L.filter (fun e => csign X Y e == -1)).toFinset)
    (hz : R._z = (L.filter (fun e => csign X Y e == 0)).toFinset) :
    ∀ e ∈ L, R.call e = Except.ok (csign X Y e) := by
  intro e he
  unfold call
  rw [hp, hn, hz]
  rcases csign_cases X Y e with h | h | h
  · rw [if_pos (by simp [List.mem_filter, he, h]), h]
  · rw [if_neg (by simp [List.mem_filter, h]),
      if_pos (by simp [List.mem_filter, he, h]), h]
  · rw [if_neg (by simp [List.mem_filter, h]),
      if_neg (by simp [List.mem_filter, h]),
      if_pos (by simp [List.mem_filter, he, h]), h]

/-- C8: for signed subsets X, Y over the same ground set (every ground-set
label carries a sign in both, and X's parent reports X's own ground set,
as for system-normalized elements), composition succeeds, the result is a
new element over the same ground set, and its sign at each label e is
X(e) when X(e) is nonzero and Y(e) otherwise. -/
theorem composition_pointwise :
    ∀ (X Y : SignedSubsetElement),
      (∀ e ∈ X._g, Resolvable X e) →
      (∀ e ∈ X._g, Resolvable Y e) →
      X.par = some X._g →
      ∃ R, X.composition Y = Except.ok R ∧ R._g = X._g ∧
        ∀ e ∈ X._g, ∃ sx sy, X.call e = Except.ok sx ∧
          Y.call e = Except.ok sy ∧
          R.call e = Except.ok (if sx ≠ 0 then sx else sy) := by
  intro X Y hrx hry hpar
  obtain ⟨R, hR, hp, hn, hz, _, hg⟩ :=
    composition_sets hrx (fun e he _ => hry e he) (Or.inr hpar)
  refine ⟨R, hR, hg hpar, ?_⟩
  intro e he
  refine ⟨sgn X e, sgn Y e, call_eq_sgn (hrx e he), call_eq_sgn (hry e he), ?_⟩
  rw [call_composition_result hp hn hz e he]
  rfl

theorem composition_pointwise_witness :
    ∃ R, SignedSubsetElement.composition
        ⟨{PyVal.int 0}, ∅, ∅, [PyVal.int 0], some [PyVal.int 0]⟩
        ⟨∅, {PyVal.int 0}, ∅, [PyVal.int 0], none⟩ = Except.ok R ∧
      R._g = [PyVal.int 0] := by
  obtain ⟨R, h1, h2, _⟩ := composition_pointwise
    ⟨{PyVal.int 0}, ∅, ∅, [PyVal.int 0], some [PyVal.int 0]⟩
    ⟨∅, {PyVal.int 0}, ∅, [PyVal.int 0], none⟩
    (by decide) (by decide) rfl
  exact ⟨R, h1, h2⟩

theorem csign_comm {X Y : SignedSubsetElement}
    (hs : X.separation_set Y = ∅) (e : PyVal) :
    csign X Y e = csign Y X e := by
  have hmem := Finset.eq_empty_iff_forall_not_mem.mp hs e
  simp only [separation_set, positives, negatives, Finset.mem_union,
    Finset.mem_inter, not_or, not_and] at hmem
  obtain ⟨h1, h2⟩ := hmem
  unfold csign sgn
  by_cases hxp : e ∈ X._p <;> by_cases hxn : e ∈ X._n <;>
    by_cases hyp' : e ∈ Y._p <;> by_cases hyn : e ∈ Y._n <;>
    simp only [hxp, hxn, hyp', hyn, if_true, if_false] <;>
    first
      | rfl
      | exact absurd hyn (h1 hxp)
      | exact absurd hyp' (h2 hxn)

/-- C9: for signed subsets X, Y over the same ground set (as label sets,
every label signed in its element, parents reporting either nothing or the
element's own ground set) with empty separation set, both compositions
succeed and X∘Y == Y∘X under the element equality of __eq__. -/
theorem composition_commutes_when_conformal :
    ∀ (X Y : SignedSubsetElement),
      X._g.toFinset = Y._g.toFinset →
      (∀ e ∈ X._g, Resolvable X e) →
      (∀ e ∈ Y._g, Resolvable Y e) →
      (X.par = none ∨ X.par = some X._g) →
      (Y.par = none ∨ Y.par = some Y._g) →
      X.separation_set Y = ∅ →
      ∃ R1 R2, X.composition Y = Except.ok R1 ∧
        Y.composition X = Except.ok R2 ∧ pyEq R1 R2 := by
  intro X Y hg hrx hry hprx hpry hs
  have hry' : ∀ e ∈ X._g, Resolvable Y e := fun e he =>
    hry e (List.mem_toFinset.mp (hg ▸ List.mem_toFinset.mpr he))
  have hrx' : ∀ e ∈ Y._g, Resolvable X e := fun e he =>
    hrx e (List.mem_toFinset.mp (hg.symm ▸ List.mem_toFinset.mpr he))
  obtain ⟨R1, hR1, hp1, hn1, hz1, _, _⟩ :=
    composition_sets hrx (fun e he _ => hry' e he) hprx
  obtain ⟨R2, hR2, hp2, hn2, hz2, _, _⟩ :=
    composition_sets hry (fun e he _ => hrx' e he) hpry
  refine ⟨R1, R2, hR1, hR2, ?_⟩
  unfold pyEq
  refine ⟨?_, ?_, ?_⟩
  · rw [hp1, hp2, List.toFinset_filter, List.toFinset_filter, hg]
    exact Finset.filter_congr (fun x _ => by rw [csign_comm hs x])
  · rw [hn1, hn2, List.toFinset_filter, List.toFinset_filter, hg]
    exact Finset.filter_congr (fun x _ => by rw [csign_comm hs x])
  · rw [hz1, hz2, List.toFinset_filter, List.toFinset_filter, hg]
    exact Finset.filter_congr (fun x _ => by rw [csign_comm hs x])

theorem composition_commutes_when_conformal_witness :
    ∃ R1 R2, SignedSubsetElement.composition
        ⟨{PyVal.int 0}, ∅, {PyVal.int 1}, [PyVal.int 0, PyVal.int 1], none⟩
        ⟨∅, ∅, {PyVal.int 0, PyVal.int 1}, [PyVal.int 0, PyVal.int 1],
          none⟩ = Except.ok R1 ∧
      SignedSubsetElement.composition
        ⟨∅, ∅, {PyVal.int 0, PyVal.int 1}, [PyVal.int 0, PyVal.int 1], none⟩
        ⟨{PyVal.int 0}, ∅, {PyVal.int 1}, [PyVal.int 0, PyVal.int 1],
          none⟩ = Except.ok R2 ∧ pyEq R1 R2 :=
  composition_commutes_when_conformal
    ⟨{PyVal.int 0}, ∅, {PyVal.int 1}, [PyVal.int 0, PyVal.int 1], none⟩
    ⟨∅, ∅, {PyVal.int 0, PyVal.int 1}, [PyVal.int 0, PyVal.int 1], none⟩
    (by decide) (by decide) (by decide) (Or.inl rfl) (Or.inl rfl)
    (by decide)

theorem reorientation_ok {X : SignedSubsetElement} {A : Finset PyVal}
    (hsupp : X._p ∪ X._n ⊆ X._g.toFinset) (hA : A ⊆ X._g.toFinset) :
    X.reorientation A = Except.ok
      ⟨(X._p \ A) ∪ (X._n ∩ A), (X._n \ A) ∪ (X._p ∩ A),
       (X._g.toFinset \ ((X._p \ A) ∪ (X._n ∩ A))) \
         ((X._n \ A) ∪ (X._p ∩ A)),
       X._g, X.par⟩ := by
  unfold reorientation
  rw [if_pos hA]
  simp only [init, ssParts, Option.some_orElse, positives, negatives, bind,
    Except.bind, ssFinish]
  rw [if_pos ?hc1, if_pos ?hc2]
  case hc1 =>
    intro a ha
    rcases Finset.mem_union.mp ha with h | h
    · rcases Finset.mem_union.mp h with h | h
      · rcases Finset.mem_union.mp h with h | h
        · exact hsupp (Finset.mem_union_left _ (Finset.mem_sdiff.mp h).1)
        · exact hsupp (Finset.mem_union_right _ (Finset.mem_inter.mp h).1)
      · rcases Finset.mem_union.mp h with h | h
        · exact hsupp (Finset.mem_union_right _ (Finset.mem_sdiff.mp h).1)
        · exact hsupp (Finset.mem_union_left _ (Finset.mem_inter.mp h).1)
    · exact (Finset.mem_sdiff.mp (Finset.mem_sdiff.mp h).1).1
  case hc2 =>
    intro a ha
    by_cases h1 : a ∈ (X._p \ A) ∪ (X._n ∩ A)
    · exact Finset.mem_union_left _ (Finset.mem_union_left _ h1)
    · by_cases h2 : a ∈ (X._n \ A) ∪ (X._p ∩ A)
      · exact Finset.mem_union_left _ (Finset.mem_union_right _ h2)
      · exact Finset.mem_union_right _
          (Finset.mem_sdiff.mpr ⟨Finset.mem_sdiff.mpr ⟨ha, h1⟩, h2⟩)

/-- C10: for a signed subset whose three sets partition its ground set
(the well-formedness invariant) and any change set contained in the ground
set, reorienting twice returns an element equal (under __eq__) to the
original. -/
theorem reorientation_involutive :
    ∀ (X : SignedSubsetElement) (A : Finset PyVal),
      Disjoint X._p X._n → Disjoint X._p X._z → Disjoint X._n X._z →
      (X._p ∪ X._n) ∪ X._z = X._g.toFinset →
      A ⊆ X._g.toFinset →
      ∃ X1 X2, X.reorientation A = Except.ok X1 ∧
        X1.reorientation A = Except.ok X2 ∧ pyEq X2 X := by
  intro X A hd1 hd2 hd3 hu hA
  have hsupp : X._p ∪ X._n ⊆ X._g.toFinset := by
    rw [← hu]
    intro a ha
    exact Finset.mem_union_left _ ha
  have h1 := reorientation_ok hsupp hA
  have hpn : ((X._p \ A) ∪ (X._n ∩ A)) ∪ ((X._n \ A) ∪ (X._p ∩ A))
      = X._p ∪ X._n := by
    ext a
    simp only [Finset.mem_union, Finset.mem_sdiff, Finset.mem_inter]
    by_cases hA' : a ∈ A <;> simp [hA'] <;> tauto
  have hsupp1 : ((X._p \ A) ∪ (X._n ∩ A)) ∪ ((X._n \ A) ∪ (X._p ∩ A))
      ⊆ X._g.toFinset := by
    rw [hpn]
    exact hsupp
  have h2 := reorientation_ok (X :=
    ⟨(X._p \ A) ∪ (X._n ∩ A), (X._n \ A) ∪ (X._p ∩ A),
     (X._g.toFinset \ ((X._p \ A) ∪ (X._n ∩ A))) \
       ((X._n \ A) ∪ (X._p ∩ A)), X._g, X.par⟩) (A := A) hsupp1 hA
  refine ⟨_, _, h1, h2, ?_⟩
  have hp2 : (((X._p \ A) ∪ (X._n ∩ A)) \ A) ∪
      (((X._n \ A) ∪ (X._p ∩ A)) ∩ A) = X._p := by
    ext a
    simp only [Finset.mem_union, Finset.mem_sdiff, Finset.mem_inter]
    by_cases hA' : a ∈ A <;> simp [hA']
  have hn2 : (((X._n \ A) ∪ (X._p ∩ A)) \ A) ∪
      (((X._p \ A) ∪ (X._n ∩ A)) ∩ A) = X._n := by
    ext a
    simp only [Finset.mem_union, Finset.mem_sdiff, Finset.mem_inter]
    by_cases hA' : a ∈ A <;> simp [hA']
  unfold pyEq
  refine ⟨hp2, hn2, ?_⟩
  rw [hp2, hn2]
  ext a
  simp only [Finset.mem_sdiff]
  constructor
  · rintro ⟨⟨hg', hnp⟩, hnn⟩
    have ha' : a ∈ (X._p ∪ X._n) ∪ X._z := hu ▸ hg'
    rcases Finset.mem_union.mp ha' with h | h
    · rcases Finset.mem_union.mp h with h | h
      · exact absurd h hnp
      · exact absurd h hnn
    · exact h
  · intro hz'
    refine ⟨⟨?_, ?_⟩, ?_⟩
    · rw [← hu]
      exact Finset.mem_union_right _ hz'
    · exact fun c => Finset.disjoint_left.mp hd2 c hz'
    · exact fun c => Finset.disjoint_left.mp hd3 c hz'

theorem reorientation_involutive_witness :
    ∃ X1 X2, SignedSubsetElement.reorientation
        ⟨{PyVal.int 0}, {PyVal.int 1}, ∅, [PyVal.int 0, PyVal.int 1], none⟩
        {PyVal.int 0} = Except.ok X1 ∧
      X1.reorientation {PyVal.int 0} = Except.ok X2 ∧
      pyEq X2 ⟨{PyVal.int 0}, {PyVal.int 1}, ∅,
        [PyVal.int 0, PyVal.int 1], none⟩ :=
  reorientation_involutive
    ⟨{PyVal.int 0}, {PyVal.int 1}, ∅, [PyVal.int 0, PyVal.int 1], none⟩
    {PyVal.int 0} (by decide) (by decide) (by decide) (by decide) (by decide)
